import Mathlib

/-!
Verification of the werewolf game-master engine (`src/game/gm.py`,
`src/game/chronicle.py`, `src/game/models.py`).

The Python code is shallowly embedded: the insertion-ordered `players`
dict becomes a `List PlayerState` in seating-plan order, agent replies
become `Option (List Char)` (with `none` for a `None` reply and `[]`
for an empty string), and the regex `DIRECTIVE_PATTERN` is embedded as
an explicit scanner with the same match semantics.  Narrative-only
fields (persona, dialect, trust, notes) play no role in any verified
property and are omitted from the player record.
-/

/-- Player roles, from `models.py` `Role`. -/
inductive Role where
  | wolf
  | witch
  | hunter
  | villager
deriving DecidableEq, Repr

/-- Runtime player state, from `models.py` `PlayerState`.  Flavor fields
(persona, dialect, trust, notes, role_private potions) are omitted: no
claim below depends on them. -/
structure PlayerState where
  seat_id : Nat
  role : Role
  alive : Bool
  hunter_has_shot : Bool
deriving DecidableEq, Repr

/-- Night resolution outcome, from `models.py` `NightOutcome`. -/
structure NightOutcome where
  kill_target : Option Nat := none
  healed_target : Option Nat := none
  poisoned_target : Option Nat := none
deriving DecidableEq, Repr

/-- Lookup of `self.players.get(seat)` / `self.players[seat]`: the players
dict is embedded as a list in seating-plan insertion order with unique
seat ids, so lookup is the first entry carrying the id. -/
def findPlayer (players : List PlayerState) (seat : Nat) : Option PlayerState :=
  players.find? (fun p => p.seat_id == seat)

/-- `GameMaster._alive_seats`: seats of living players, in players-dict
(seating-plan) order. -/
def aliveSeats (players : List PlayerState) : List Nat :=
  (players.filter (fun p => p.alive)).map (fun p => p.seat_id)

/-- `GameMaster._wolves_alive`: seats of living wolves, in players-dict
order. -/
def wolvesAlive (players : List PlayerState) : List Nat :=
  (players.filter (fun p => p.alive && p.role == Role.wolf)).map (fun p => p.seat_id)

/-- The count `wolves_alive` computed in `GameMaster._is_finished`. -/
def countWolvesAlive (players : List PlayerState) : Nat :=
  (players.filter (fun p => p.alive && p.role == Role.wolf)).length

/-- The count `villagers_alive` computed in `GameMaster._is_finished`
(every living non-wolf, whatever its role). -/
def countVillagersAlive (players : List PlayerState) : Nat :=
  (players.filter (fun p => p.alive && !(p.role == Role.wolf))).length

/-- Splits a character list at the first `'】'`: the (possibly empty)
prefix before it and the suffix after it, or `none` when no `'】'`
occurs.  This is how the regex piece `(?P<action>[^】]+)】` consumes
text: the action group can never cross a `'】'`, so it always ends at
the first one. -/
def splitAtClose : List Char → Option (List Char × List Char)
  | [] => none
  | c :: cs =>
    if c = '】' then some ([], cs)
    else
      match splitAtClose cs with
      | some (a, b) => some (c :: a, b)
      | none => none

/-- Embedding of `DIRECTIVE_PATTERN.finditer(text)` for the pattern
`【(?P<action>[^】]+)】座位(?P<seat>\d)`: all non-overlapping matches,
scanned left to right, as (action, seat digit) pairs.  On a failed
attempt the scan advances one character; on a successful match it
resumes after the matched digit.  Python's `\d` also accepts non-ASCII
decimal digits, which likewise denote a single value 0–9; the embedding
uses decimal digits `'0'`–`'9'`. -/
def findMatches (l : List Char) : List (List Char × Char) :=
  match l with
  | [] => []
  | c :: rest =>
    if c = '【' then
      match hsplit : splitAtClose rest with
      | some (action, '座' :: '位' :: d :: tail) =>
        if action ≠ [] ∧ d.isDigit then (action, d) :: findMatches tail
        else findMatches rest
      | _ => findMatches rest
    else findMatches rest
termination_by l.length
decreasing_by
  · have key : ∀ (l : List Char) a b, splitAtClose l = some (a, b) → b.length < l.length := by
      intro l
      induction l with
      | nil => intro a b h; simp [splitAtClose] at h
      | cons c cs ih =>
        intro a b h
        simp only [splitAtClose] at h
        split at h
        · obtain ⟨-, rfl⟩ := Option.some.inj h
          simp
        · cases hs : splitAtClose cs with
          | none => rw [hs] at h; exact absurd h (by simp)
          | some p =>
            obtain ⟨a0, b0⟩ := p
            rw [hs] at h
            obtain ⟨-, rfl⟩ := Option.some.inj h
            have := ih _ _ hs
            simp
            omega
    have := key _ _ _ hsplit
    simp at this ⊢
    omega
  all_goals simp

/-- `GameMaster._parse_directive`: the first directive match whose action
equals the keyword yields `int(seat-digit)`; otherwise no target. -/
def parseDirective (text keyword : List Char) : Option Nat :=
  ((findMatches text).find? (fun m => m.1 == keyword)).map (fun m => m.2.toNat - '0'.toNat)

/-- Raw death list built by the two `if` blocks at the top of
`GameMaster._resolve_deaths`: the kill target unless it equals the
healed target, then the poisoned target. -/
def rawDeaths (o : NightOutcome) : List Nat :=
  (match o.kill_target with
   | some k => if o.healed_target = some k then [] else [k]
   | none => []) ++
  (match o.poisoned_target with
   | some q => [q]
   | none => [])

/-- The test `seat in self.players and self.players[seat].alive`. -/
def aliveIn (players : List PlayerState) (seat : Nat) : Bool :=
  ((findPlayer players seat).map (fun p => p.alive)).getD false

/-- The `unique_deaths` loop of `GameMaster._resolve_deaths`: keep each
seat once, and only if it names an existing, still-living player. -/
def uniqueAliveDeaths (players : List PlayerState) (acc : List Nat) :
    List Nat → List Nat
  | [] => acc
  | seat :: rest =>
    if seat ∉ acc ∧ aliveIn players seat then
      uniqueAliveDeaths players (acc ++ [seat]) rest
    else
      uniqueAliveDeaths players acc rest

/-- `self.players[seat].alive = False`. -/
def killSeat (players : List PlayerState) (seat : Nat) : List PlayerState :=
  players.map (fun p => if p.seat_id = seat then { p with alive := false } else p)

/-- `GameMaster._resolve_deaths`: death list for a night outcome plus the
updated roster (each listed seat's alive flag flipped). -/
def resolveDeaths (players : List PlayerState) (outcome : Option NightOutcome) :
    List Nat × List PlayerState :=
  match outcome with
  | none => ([], players)
  | some o =>
    let u := uniqueAliveDeaths players [] (rawDeaths o)
    (u, u.foldl killSeat players)

/-- `player.hunter_has_shot = True` for the given seat. -/
def setShot (players : List PlayerState) (seat : Nat) : List PlayerState :=
  players.map (fun p => if p.seat_id = seat then { p with hunter_has_shot := true } else p)

/-- The hunter-flag of a seat (`false` when the seat does not exist). -/
def flagOf (players : List PlayerState) (seat : Nat) : Bool :=
  ((findPlayer players seat).map (fun p => p.hunter_has_shot)).getD false

/-- Whether `pat` occurs at the front of `text`. -/
def leadsWith : List Char → List Char → Bool
  | [], _ => true
  | _ :: _, [] => false
  | p :: ps, c :: cs => p = c && leadsWith ps cs

/-- Python's substring test `pat in text`. -/
def containsSeq (pat : List Char) : List Char → Bool
  | [] => leadsWith pat []
  | c :: cs => leadsWith pat (c :: cs) || containsSeq pat cs

/-- The keyword `开枪` of the shoot directive. -/
def shootKeyword : List Char := ['开', '枪']

/-- The marker `【开枪】` checked by `"【开枪】" in response`. -/
def shootMarker : List Char := ['【', '开', '枪', '】']

/-- `GameMaster._trigger_hunter_if_needed`, as a roster transformer given
the agent's raw reply (`none` = Python `None`, `some []` = empty string;
both are falsy, triggering the early `return`). -/
def triggerHunter (players : List PlayerState) (seat : Nat)
    (response : Option (List Char)) : List PlayerState :=
  match findPlayer players seat with
  | none => players
  | some player =>
    if player.role ≠ Role.hunter ∨ player.hunter_has_shot then players
    else
      match response with
      | none => players
      | some text =>
        if text = [] then players
        else
          let players1 :=
            if containsSeq shootMarker text then
              match parseDirective text shootKeyword with
              | some target =>
                if ((findPlayer players target).getD player).alive then
                  killSeat players target
                else players
              | none => players
            else players
          setShot players1 seat

/-- Whether one invocation of `_trigger_hunter_if_needed` actually kills a
target: every guard passes and the shot directive names a living seat.
The branch structure deliberately mirrors `triggerHunter`. -/
def shotTaken (players : List PlayerState) (seat : Nat)
    (response : Option (List Char)) : Bool :=
  match findPlayer players seat with
  | none => false
  | some player =>
    if player.role ≠ Role.hunter ∨ player.hunter_has_shot then false
    else
      match response with
      | none => false
      | some text =>
        if text = [] then false
        else if containsSeq shootMarker text then
          match parseDirective text shootKeyword with
          | some target => ((findPlayer players target).getD player).alive
          | none => false
        else false

/-- Number of successful retaliatory kills fired by seat `h` across a
sequence of `_trigger_hunter_if_needed` invocations, each given as the
triggered seat paired with the agent's raw reply. -/
def countShots (players : List PlayerState) (h : Nat) :
    List (Nat × Option (List Char)) → Nat
  | [] => 0
  | (s, r) :: rest =>
    (if s = h ∧ shotTaken players s r then 1 else 0) +
      countShots (triggerHunter players s r) h rest

/-- Keys of `collections.Counter(votes)` in first-encounter order, which
is how Python's insertion-ordered `Counter` stores them. -/
def keysInOrder : List Nat → List Nat
  | [] => []
  | x :: xs => x :: keysInOrder (xs.filter (fun y => y ≠ x))
termination_by l => l.length
decreasing_by
  simp only [List.length_cons]
  exact Nat.lt_succ_of_le (List.length_filter_le _ _)

/-- Left scan selecting the key of maximum count, keeping the earlier key
on ties: `Counter.most_common` sorts by count descending and is stable,
so the first-encountered key among those of maximal count wins. -/
def pickMax (votes : List Nat) (best : Nat) : List Nat → Nat
  | [] => best
  | k :: ks =>
    if votes.count k > votes.count best then pickMax votes k ks
    else pickMax votes best ks

/-- `Counter(votes).most_common(1)[0][0]`: the plurality element, ties
resolved to the first-encountered key. -/
def mostCommonOne (votes : List Nat) : Option Nat :=
  match keysInOrder votes with
  | [] => none
  | k :: ks => some (pickMax votes k ks)

/-- The kill-target aggregation at the end of `GameMaster._night_wolves`:
no votes means no kill target, otherwise the most common vote. -/
def nightKillTarget (wolf_votes : List Nat) : Option Nat :=
  match wolf_votes with
  | [] => none
  | _ :: _ => mostCommonOne wolf_votes

/-- Maximum total count attained by any element of `l`, counts taken in
`votes` (proof-side helper). -/
def countsMax (votes : List Nat) : List Nat → Nat
  | [] => 0
  | k :: ks => max (votes.count k) (countsMax votes ks)

/-- First element of `l` whose total count in `votes` equals `m`
(proof-side helper). -/
def firstWithCount (votes : List Nat) (m : Nat) : List Nat → Option Nat
  | [] => none
  | k :: ks => if votes.count k = m then some k else firstWithCount votes m ks

/-- Modelled from the claim's words, for comparison with the code's
tally: scanning the vote sequence with running counts, the winner is the
candidate that first reaches the maximum total count. -/
def firstToReachCount (m : Nat) : List Nat → List Nat → Option Nat
  | _, [] => none
  | seen, v :: rest =>
    if seen.count v + 1 = m then some v
    else firstToReachCount m (seen ++ [v]) rest

/-- Modelled from the claim's words: plurality choice with ties broken in
favor of the candidate that first reached the maximum count in the vote
sequence; no votes means no kill target. -/
def claimedKillTarget (votes : List Nat) : Option Nat :=
  match votes with
  | [] => none
  | _ :: _ => firstToReachCount (countsMax votes votes) [] votes

/-- The vote-validation fallback in `GameMaster._voting`: an unparsed,
unknown or dead target is overridden with the first alive wolf seat, or
`None` when no wolf is alive. -/
def voteFallback (players : List PlayerState) (parsed : Option Nat) : Option Nat :=
  let target_player :=
    match parsed with
    | some t => findPlayer players t
    | none => none
  match target_player with
  | some tp => if tp.alive then parsed else (wolvesAlive players).head?
  | none => (wolvesAlive players).head?

/-- Night events appended by `Chronicle.log_night_event`, with the shapes
`gm.py` actually constructs. -/
inductive NightEvent where
  | wolfVote (round fromSeat target : Nat)
  | wolfBackup (round fromSeat target : Nat)
  | kill (round target : Nat)
  | witchHeal (round target : Nat)
  | witchPoison (round target : Nat)
  | witchIdle (round : Nat)
deriving DecidableEq, Repr

/-- Day utterance entry, from `Chronicle.add_day_utterance`. -/
structure Utterance where
  seat : Nat
  idx : Nat
  text : String
  one_line : String
deriving DecidableEq, Repr

/-- `chronicle.DayRecord`. -/
structure DayRecord where
  order : List Nat
  utterances : List Utterance := []
  votes : List (Nat × Option Nat) := []
  lynch : Option Nat := none
  summary_10 : List String := []
deriving DecidableEq, Repr

/-- `chronicle.NightRecord`. -/
structure NightRecord where
  events : List NightEvent := []
  summary_5 : List String := []
deriving DecidableEq, Repr

/-- `chronicle.RoundRecord`. -/
structure RoundRecord where
  round : Nat
  night : NightRecord := {}
  day : DayRecord := { order := [] }
deriving DecidableEq, Repr

/-- `chronicle.Chronicle`; the `rounds` dict is embedded as an
insertion-ordered association list. -/
structure Chronicle where
  seats : List Nat
  rounds : List (Nat × RoundRecord) := []
  global_summary : List String := ["首夜进行中。"]
deriving DecidableEq, Repr

/-- A fresh chronicle, as built by `Chronicle(seats=...)`. -/
def mkChronicle (seats : List Nat) : Chronicle :=
  { seats := seats }

/-- Dict lookup `round_no in self.rounds` / `self.rounds[round_no]`. -/
def lookupRound (rounds : List (Nat × RoundRecord)) (n : Nat) : Option RoundRecord :=
  (rounds.find? (fun kv => kv.1 == n)).map (fun kv => kv.2)

/-- In-place update of the record stored under an existing key. -/
def updateRound (rounds : List (Nat × RoundRecord)) (n : Nat)
    (f : RoundRecord → RoundRecord) : List (Nat × RoundRecord) :=
  rounds.map (fun kv => if kv.1 = n then (kv.1, f kv.2) else kv)

/-- `Chronicle.ensure_round`: create the round on first touch (appended at
the end, as dict insertion does), otherwise overwrite the day order when
one is supplied. -/
def ensureRound (c : Chronicle) (n : Nat) (order : Option (List Nat)) : Chronicle :=
  match lookupRound c.rounds n with
  | none =>
    { c with rounds := c.rounds ++ [(n, { round := n, day := { order := order.getD [] } })] }
  | some _ =>
    match order with
    | some o =>
      { c with rounds := updateRound c.rounds n (fun r => { r with day := { r.day with order := o } }) }
    | none => c

/-- `Chronicle.log_night_event`. -/
def logNightEvent (c : Chronicle) (n : Nat) (e : NightEvent) : Chronicle :=
  let c1 := ensureRound c n none
  { c1 with rounds := updateRound c1.rounds n (fun r =>
      { r with night := { r.night with events := r.night.events ++ [e] } }) }

/-- `Chronicle.set_night_summary`. -/
def setNightSummary (c : Chronicle) (n : Nat) (summary : List String) : Chronicle :=
  let c1 := ensureRound c n none
  { c1 with rounds := updateRound c1.rounds n (fun r =>
      { r with night := { r.night with summary_5 := summary.take 5 } }) }

/-- `Chronicle.add_day_utterance`. -/
def addDayUtterance (c : Chronicle) (n seat idx : Nat) (text one_line : String) : Chronicle :=
  let c1 := ensureRound c n none
  { c1 with rounds := updateRound c1.rounds n (fun r =>
      { r with day := { r.day with utterances :=
          r.day.utterances ++ [{ seat := seat, idx := idx, text := text, one_line := one_line }] } }) }

/-- `Chronicle.add_vote`. -/
def addVote (c : Chronicle) (n fromSeat : Nat) (toSeat : Option Nat) : Chronicle :=
  let c1 := ensureRound c n none
  { c1 with rounds := updateRound c1.rounds n (fun r =>
      { r with day := { r.day with votes := r.day.votes ++ [(fromSeat, toSeat)] } }) }

/-- `Chronicle.set_lynch`. -/
def setLynch (c : Chronicle) (n : Nat) (seat : Option Nat) : Chronicle :=
  let c1 := ensureRound c n none
  { c1 with rounds := updateRound c1.rounds n (fun r =>
      { r with day := { r.day with lynch := seat } }) }

/-- `Chronicle.append_day_summary`: append only when absent, then keep the
first ten entries. -/
def appendDaySummary (c : Chronicle) (n : Nat) (s : String) : Chronicle :=
  let c1 := ensureRound c n none
  { c1 with rounds := updateRound c1.rounds n (fun r =>
      if s ∈ r.day.summary_10 then r
      else { r with day := { r.day with summary_10 := (r.day.summary_10 ++ [s]).take 10 } }) }

/-- `Chronicle.refresh_global_summary`: append only when absent, trimming
to the most recent six entries on overflow. -/
def refreshGlobalSummary (c : Chronicle) (s : String) : Chronicle :=
  if s ∈ c.global_summary then c
  else
    let g := c.global_summary ++ [s]
    { c with global_summary := if g.length > 6 then g.drop (g.length - 6) else g }

/-- The match state touched by `GameMaster._is_finished`: roster,
chronicle, round number, recorded result, and the RNG (embedded as an
abstract state number). -/
structure GMState where
  players : List PlayerState
  chronicle : Chronicle
  round_no : Nat
  result : String
  rng : Nat
deriving DecidableEq, Repr

/-- `GameMaster._is_finished`: the returned boolean together with the
whole state after the call (the method writes `self._result` on the two
terminal branches).  The method's two local counts are inlined. -/
def isFinished (s : GMState) : Bool × GMState :=
  if countWolvesAlive s.players = 0 then (true, { s with result := "villagers_win" })
  else if countWolvesAlive s.players ≥ countVillagersAlive s.players then
    (true, { s with result := "wolves_win" })
  else (false, s)

/-- State after `n` further calls of `_is_finished`. -/
def iterFinished (s : GMState) : Nat → GMState
  | 0 => s
  | n + 1 => iterFinished (isFinished s).2 n

/-- The write operations `gm.py` performs on the chronicle, one
constructor per public mutator. -/
inductive ChronOp where
  | ensure (n : Nat) (order : Option (List Nat))
  | nightEvent (n : Nat) (e : NightEvent)
  | nightSummary (n : Nat) (s : List String)
  | dayUtterance (n seat idx : Nat) (text one_line : String)
  | vote (n fromSeat : Nat) (toSeat : Option Nat)
  | lynch (n : Nat) (seat : Option Nat)
  | daySummary (n : Nat) (s : String)
  | globalSummary (s : String)
deriving Repr

/-- Interpretation of one chronicle operation. -/
def applyOp (c : Chronicle) : ChronOp → Chronicle
  | .ensure n order => ensureRound c n order
  | .nightEvent n e => logNightEvent c n e
  | .nightSummary n s => setNightSummary c n s
  | .dayUtterance n seat idx text one_line => addDayUtterance c n seat idx text one_line
  | .vote n fromSeat toSeat => addVote c n fromSeat toSeat
  | .lynch n seat => setLynch c n seat
  | .daySummary n s => appendDaySummary c n s
  | .globalSummary s => refreshGlobalSummary c s

/-- Interpretation of a sequence of chronicle operations. -/
def applyOps (c : Chronicle) (ops : List ChronOp) : Chronicle :=
  ops.foldl applyOp c

/-- The bounded-deduplicated-summaries invariant: at most six global
summary entries, at most ten day summary entries per round, and no
duplicates in either list. -/
def chronInv (c : Chronicle) : Prop :=
  c.global_summary.length ≤ 6 ∧ c.global_summary.Nodup ∧
    ∀ kv ∈ c.rounds, kv.2.day.summary_10.length ≤ 10 ∧ kv.2.day.summary_10.Nodup

/-- The speaking order computed at the top of `GameMaster._day_phase`
(`alive_order = self._alive_seats()`). -/
def dayPhaseOrder (players : List PlayerState) : List Nat :=
  aliveSeats players

/-- The chronicle write at the top of `GameMaster._day_phase`
(`self.chronicle.ensure_round(self.round_no, order=alive_order)`). -/
def dayPhaseRecordOrder (c : Chronicle) (round_no : Nat)
    (players : List PlayerState) : Chronicle :=
  ensureRound c round_no (some (dayPhaseOrder players))

/-- Insertion into an ascending list (proof-side sorting helper). -/
def insertAsc (a : Nat) : List Nat → List Nat
  | [] => [a]
  | b :: bs => if a ≤ b then a :: b :: bs else b :: insertAsc a bs

/-- Insertion sort into ascending order (proof-side sorting helper). -/
def sortAsc : List Nat → List Nat
  | [] => []
  | a :: as => insertAsc a (sortAsc as)

/-- Modelled from the claim's words: the currently-alive seats sorted in
ascending seat-id order. -/
def claimedDayOrder (players : List PlayerState) : List Nat :=
  sortAsc (aliveSeats players)

/-- Example roster for witnesses: a wolf, a villager and a witch, all
alive, seats in ascending order. -/
def exRoster : List PlayerState :=
  [⟨1, Role.wolf, true, false⟩, ⟨2, Role.villager, true, false⟩, ⟨3, Role.witch, true, false⟩]

/-- Night outcome whose heal misses the kill target while a poison is
out. -/
def exOutcomeHealOther : NightOutcome :=
  { kill_target := some 1, healed_target := some 3, poisoned_target := some 2 }

/-- Night outcome whose heal exactly cancels the kill target. -/
def exOutcomeHealKill : NightOutcome :=
  { kill_target := some 1, healed_target := some 1, poisoned_target := none }

/-- Match state with no wolf left alive and the result still unset. -/
def exStateNoWolves : GMState :=
  { players := [⟨2, Role.villager, true, false⟩]
    chronicle := mkChronicle [2]
    round_no := 3
    result := "ongoing"
    rng := 0 }

/-- Roster with a freshly dead hunter (ability unused) and a living
villager. -/
def exHunterRoster : List PlayerState :=
  [⟨1, Role.hunter, false, false⟩, ⟨2, Role.villager, true, false⟩]

/-- Roster where the hunter's ability is already spent. -/
def exHunterShotRoster : List PlayerState :=
  [⟨1, Role.hunter, false, true⟩, ⟨2, Role.villager, true, false⟩]

/-- A reply carrying a shoot directive on seat 2. -/
def exShootReply : List Char := "【开枪】座位2".toList

/-- A reply with text but no shoot directive. -/
def exPassReply : List Char := "不开枪".toList

/-- Roster whose seating plan lists seat 2 before seat 1. -/
def exUnsortedRoster : List PlayerState :=
  [⟨2, Role.villager, true, false⟩, ⟨1, Role.wolf, true, false⟩]

/-- Roster with a living wolf on seat 1 and a dead villager on seat 2. -/
def exVoteRoster : List PlayerState :=
  [⟨1, Role.wolf, true, false⟩, ⟨2, Role.villager, false, false⟩]

theorem findPlayer_map (players : List PlayerState) (f : PlayerState → PlayerState)
    (hf : ∀ p, (f p).seat_id = p.seat_id) (seat : Nat) :
    findPlayer (players.map f) seat = (findPlayer players seat).map f := by
  induction players with
  | nil => rfl
  | cons p ps ih =>
    simp only [List.map_cons, findPlayer, List.find?_cons] at *
    by_cases h : (p.seat_id == seat) = true
    · simp [hf p, h]
    · simp only [Bool.not_eq_true] at h
      simp [hf p, h, ih]

theorem findPlayer_killSeat (players : List PlayerState) (t s : Nat) :
    findPlayer (killSeat players t) s =
      (findPlayer players s).map
        (fun p => if p.seat_id = t then { p with alive := false } else p) := by
  unfold killSeat
  apply findPlayer_map
  intro p
  by_cases h : p.seat_id = t <;> simp [h]

theorem findPlayer_setShot (players : List PlayerState) (t s : Nat) :
    findPlayer (setShot players t) s =
      (findPlayer players s).map
        (fun p => if p.seat_id = t then { p with hunter_has_shot := true } else p) := by
  unfold setShot
  apply findPlayer_map
  intro p
  by_cases h : p.seat_id = t <;> simp [h]

theorem findPlayer_seat_id {players : List PlayerState} {s : Nat} {p : PlayerState}
    (h : findPlayer players s = some p) : p.seat_id = s := by
  have := List.find?_some h
  simpa using this

theorem aliveIn_killSeat_self (players : List PlayerState) (s : Nat) :
    aliveIn (killSeat players s) s = false := by
  unfold aliveIn
  rw [findPlayer_killSeat]
  cases h : findPlayer players s with
  | none => simp
  | some p => simp [findPlayer_seat_id h]

theorem aliveIn_killSeat_of_false (players : List PlayerState) (t s : Nat)
    (h : aliveIn players s = false) : aliveIn (killSeat players t) s = false := by
  unfold aliveIn at *
  rw [findPlayer_killSeat]
  cases hf : findPlayer players s with
  | none => simp
  | some p =>
    rw [hf] at h
    simp at h
    by_cases ht : p.seat_id = t <;> simp [ht, h]

theorem aliveIn_foldl_killSeat_of_false (l : List Nat) (players : List PlayerState)
    (s : Nat) (h : aliveIn players s = false) :
    aliveIn (l.foldl killSeat players) s = false := by
  induction l generalizing players with
  | nil => simpa
  | cons t ts ih => exact ih _ (aliveIn_killSeat_of_false _ _ _ h)

theorem aliveIn_foldl_killSeat (l : List Nat) (players : List PlayerState)
    (s : Nat) (h : s ∈ l) : aliveIn (l.foldl killSeat players) s = false := by
  induction l generalizing players with
  | nil => cases h
  | cons t ts ih =>
    rcases List.mem_cons.mp h with rfl | hm
    · exact aliveIn_foldl_killSeat_of_false ts _ _ (aliveIn_killSeat_self _ _)
    · exact ih _ hm

theorem mem_uniqueAliveDeaths (players : List PlayerState) (l : List Nat)
    (acc : List Nat) (s : Nat) :
    s ∈ uniqueAliveDeaths players acc l ↔
      s ∈ acc ∨ (s ∈ l ∧ aliveIn players s = true) := by
  induction l generalizing acc with
  | nil => simp [uniqueAliveDeaths]
  | cons seat rest ih =>
    simp only [uniqueAliveDeaths]
    split
    · rename_i hcond
      rw [ih]
      simp only [List.mem_append, List.mem_cons, List.not_mem_nil, or_false]
      constructor
      · rintro ((h | rfl) | ⟨hr, ha⟩)
        · exact .inl h
        · exact .inr ⟨.inl rfl, hcond.2⟩
        · exact .inr ⟨.inr hr, ha⟩
      · rintro (h | ⟨(rfl | hr), ha⟩)
        · exact .inl (.inl h)
        · exact .inl (.inr rfl)
        · exact .inr ⟨hr, ha⟩
    · rename_i hcond
      rw [ih]
      simp only [List.mem_cons]
      constructor
      · rintro (h | ⟨hr, ha⟩)
        · exact .inl h
        · exact .inr ⟨.inr hr, ha⟩
      · rintro (h | ⟨(rfl | hr), ha⟩)
        · exact .inl h
        · exact .inl (of_not_not (fun hn => hcond ⟨hn, ha⟩))
        · exact .inr ⟨hr, ha⟩

/-- C1: Death resolution at daybreak: the kill target dies unless it
equals the healed target; the poisoned target (if any) dies regardless
of the heal; a heal naming the kill target (with a different or absent
poison target) keeps the kill target out of the death list; and every
seat in the death list has its alive flag flipped off in the updated
roster. -/
theorem death_resolution_daybreak (players : List PlayerState) (o : NightOutcome) :
    (∀ k, o.kill_target = some k → o.healed_target ≠ some k → aliveIn players k = true →
        k ∈ (resolveDeaths players (some o)).1) ∧
    (∀ q, o.poisoned_target = some q → aliveIn players q = true →
        q ∈ (resolveDeaths players (some o)).1) ∧
    (∀ k, o.kill_target = some k → o.healed_target = some k → o.poisoned_target ≠ some k →
        k ∉ (resolveDeaths players (some o)).1) ∧
    (∀ s, s ∈ (resolveDeaths players (some o)).1 →
        aliveIn (resolveDeaths players (some o)).2 s = false) := by
  have hfst : (resolveDeaths players (some o)).1 = uniqueAliveDeaths players [] (rawDeaths o) := rfl
  refine ⟨?_, ?_, ?_, ?_⟩
  · intro k hk hh ha
    rw [hfst, mem_uniqueAliveDeaths]
    refine .inr ⟨?_, ha⟩
    simp [rawDeaths, hk, hh]
  · intro q hq ha
    rw [hfst, mem_uniqueAliveDeaths]
    refine .inr ⟨?_, ha⟩
    simp [rawDeaths, hq]
  · intro k hk hh hp
    rw [hfst, mem_uniqueAliveDeaths]
    rintro (h | ⟨hmem, -⟩)
    · simp at h
    · have hraw : rawDeaths o =
          (match o.poisoned_target with | some q => [q] | none => []) := by
        simp [rawDeaths, hk, hh]
      rw [hraw] at hmem
      cases hpt : o.poisoned_target with
      | none => rw [hpt] at hmem; simp at hmem
      | some q =>
        rw [hpt] at hmem
        simp only [List.mem_singleton] at hmem
        subst hmem
        exact hp hpt
  · intro s hs
    have hsnd : (resolveDeaths players (some o)).2 =
        (uniqueAliveDeaths players [] (rawDeaths o)).foldl killSeat players := rfl
    rw [hsnd]
    exact aliveIn_foldl_killSeat _ _ _ (by rwa [hfst] at hs)

/-- Witness for C1: with the wolf kill on seat 1, heal on seat 3 and
poison on seat 2, seats 1 and 2 die; with the heal on seat 1 itself and
no poison, seat 1 survives. -/
theorem death_resolution_daybreak_witness :
    1 ∈ (resolveDeaths exRoster (some exOutcomeHealOther)).1 ∧
    2 ∈ (resolveDeaths exRoster (some exOutcomeHealOther)).1 ∧
    1 ∉ (resolveDeaths exRoster (some exOutcomeHealKill)).1 :=
  ⟨(death_resolution_daybreak exRoster exOutcomeHealOther).1 1 rfl (by decide) (by decide),
   (death_resolution_daybreak exRoster exOutcomeHealOther).2.1 2 rfl (by decide),
   (death_resolution_daybreak exRoster exOutcomeHealKill).2.2.1 1 rfl rfl (by decide)⟩

theorem isFinished_players (s : GMState) : (isFinished s).2.players = s.players := by
  unfold isFinished
  split_ifs <;> rfl

theorem iterFinished_players (s : GMState) (n : Nat) :
    (iterFinished s n).players = s.players := by
  induction n generalizing s with
  | zero => rfl
  | succ m ih => rw [iterFinished, ih, isFinished_players]

/-- C2: Win evaluation: zero living wolves reports the villager win; a
nonzero wolf count at least the non-wolf count reports the wolf win;
otherwise the match is ongoing; and once zero wolves are alive every
subsequent call still reports the villager win. -/
theorem win_evaluation_classification (s : GMState) :
    (countWolvesAlive s.players = 0 →
      isFinished s = (true, { s with result := "villagers_win" })) ∧
    (countWolvesAlive s.players ≠ 0 →
      countWolvesAlive s.players ≥ countVillagersAlive s.players →
      isFinished s = (true, { s with result := "wolves_win" })) ∧
    (countWolvesAlive s.players ≠ 0 →
      countWolvesAlive s.players < countVillagersAlive s.players →
      isFinished s = (false, s)) ∧
    (countWolvesAlive s.players = 0 → ∀ n,
      isFinished (iterFinished s n) =
        (true, { iterFinished s n with result := "villagers_win" })) := by
  have hbranch : ∀ t : GMState, countWolvesAlive t.players = 0 →
      isFinished t = (true, { t with result := "villagers_win" }) := by
    intro t ht
    unfold isFinished
    rw [if_pos ht]
  refine ⟨hbranch s, ?_, ?_, ?_⟩
  · intro h hge
    unfold isFinished
    rw [if_neg h, if_pos hge]
  · intro h hlt
    unfold isFinished
    rw [if_neg h, if_neg (by omega)]
  · intro h n
    exact hbranch _ (by rw [iterFinished_players]; exact h)

/-- Witness for C2: on a one-villager roster with no wolves the evaluator
returns finished with the villager result, at the first call and after
two further calls. -/
theorem win_evaluation_classification_witness :
    isFinished exStateNoWolves =
      (true, { exStateNoWolves with result := "villagers_win" }) ∧
    isFinished (iterFinished exStateNoWolves 2) =
      (true, { iterFinished exStateNoWolves 2 with result := "villagers_win" }) :=
  ⟨(win_evaluation_classification exStateNoWolves).1 (by decide),
   (win_evaluation_classification exStateNoWolves).2.2.2 (by decide) 2⟩

/-- C7 counterexample: `_is_finished` is not free of side effects on the
match state: on a no-wolf state whose recorded result is still
"ongoing", the call overwrites the recorded result, so the state after
the call differs from the state before it. -/
theorem win_evaluation_not_pure :
    (isFinished exStateNoWolves).2.result = "villagers_win" ∧
    exStateNoWolves.result = "ongoing" ∧
    (isFinished exStateNoWolves).2 ≠ exStateNoWolves := by
  decide

/-- C7 amended: the evaluator's boolean verdict is a function of the
roster alone, repeated calls return the same verdict, the roster,
chronicle, round number and RNG are left untouched, and from the second
call on the state is a fixed point (idempotence after the first call). -/
theorem win_evaluation_idempotent (s : GMState) :
    (isFinished s).2.players = s.players ∧
    (isFinished s).2.chronicle = s.chronicle ∧
    (isFinished s).2.round_no = s.round_no ∧
    (isFinished s).2.rng = s.rng ∧
    isFinished (isFinished s).2 = ((isFinished s).1, (isFinished s).2) := by
  unfold isFinished
  split_ifs with h1 h2 <;> simp_all [countWolvesAlive, countVillagersAlive]

/-- C5: Vote fallback: an unparsed vote, a vote for a nonexistent seat,
or a vote for a dead seat is overridden with the first alive wolf seat
(the head of `_wolves_alive()`, whoever the voter is), and the recorded
vote is `none` only when no wolf is alive. -/
theorem vote_fallback_override (players : List PlayerState) (parsed : Option Nat) :
    (parsed = none → voteFallback players parsed = (wolvesAlive players).head?) ∧
    (∀ t, parsed = some t → findPlayer players t = none →
      voteFallback players parsed = (wolvesAlive players).head?) ∧
    (∀ t p, parsed = some t → findPlayer players t = some p → p.alive = false →
      voteFallback players parsed = (wolvesAlive players).head?) ∧
    (voteFallback players parsed = none → wolvesAlive players = []) := by
  refine ⟨?_, ?_, ?_, ?_⟩
  · intro h
    subst h
    rfl
  · intro t ht hf
    subst ht
    simp [voteFallback, hf]
  · intro t p ht hf ha
    subst ht
    simp [voteFallback, hf, ha]
  · intro h
    cases hp : parsed with
    | none =>
      subst hp
      simpa [voteFallback, List.head?_eq_none_iff] using h
    | some t =>
      subst hp
      have hred : voteFallback players (some t) =
          match findPlayer players t with
          | some tp => if tp.alive then some t else (wolvesAlive players).head?
          | none => (wolvesAlive players).head? := rfl
      rw [hred] at h
      cases hf : findPlayer players t with
      | none =>
        rw [hf] at h
        simpa [List.head?_eq_none_iff] using h
      | some tp =>
        rw [hf] at h
        by_cases ha : tp.alive = true
        · simp [ha] at h
        · simp only [Bool.not_eq_true] at ha
          simp only [ha, Bool.false_eq_true, if_false] at h
          simpa [List.head?_eq_none_iff] using h

/-- Witness for C5: with no parsed target the fallback picks wolf seat 1;
a vote naming the dead seat 2 is overridden to wolf seat 1; and with no
wolf alive the recorded vote is `none`. -/
theorem vote_fallback_override_witness :
    voteFallback exRoster none = some 1 ∧
    voteFallback exVoteRoster (some 2) = some 1 ∧
    voteFallback exHunterRoster (some 9) = none :=
  ⟨((vote_fallback_override exRoster none).1 rfl).trans (by decide),
   ((vote_fallback_override exVoteRoster (some 2)).2.2.1 2
      ⟨2, Role.villager, false, false⟩ rfl (by decide) rfl).trans (by decide),
   ((vote_fallback_override exHunterRoster (some 9)).2.1 9 rfl (by decide)).trans
      (by decide)⟩

theorem flagOf_setShot_of_isSome (players : List PlayerState) (s : Nat)
    (h : (findPlayer players s).isSome) : flagOf (setShot players s) s = true := by
  unfold flagOf
  rw [findPlayer_setShot]
  cases hf : findPlayer players s with
  | none => rw [hf] at h; simp at h
  | some p => simp [findPlayer_seat_id hf]

theorem findPlayer_killSeat_isSome (players : List PlayerState) (t s : Nat) :
    (findPlayer (killSeat players t) s).isSome = (findPlayer players s).isSome := by
  rw [findPlayer_killSeat]
  cases findPlayer players s <;> simp

/-- Core of the hunter-flag postcondition: on a hunter seat whose ability
is unused, any non-empty reply leaves the flag set. -/
theorem flagOf_trigger_nonempty (players : List PlayerState) (seat : Nat)
    (p : PlayerState) (text : List Char) (hf : findPlayer players seat = some p)
    (hrole : p.role = Role.hunter) (hshot : p.hunter_has_shot = false)
    (htext : text ≠ []) :
    flagOf (triggerHunter players seat (some text)) seat = true := by
  unfold triggerHunter
  rw [hf]
  show flagOf
      (if p.role ≠ Role.hunter ∨ p.hunter_has_shot = true then players
       else if text = [] then players
       else setShot
         (if containsSeq shootMarker text = true then
            match parseDirective text shootKeyword with
            | some target =>
              if ((findPlayer players target).getD p).alive = true then killSeat players target
              else players
            | none => players
          else players) seat) seat = true
  rw [if_neg (by simp [hrole, hshot])]
  rw [if_neg htext]
  apply flagOf_setShot_of_isSome
  by_cases hc : containsSeq shootMarker text = true
  · rw [if_pos hc]
    cases hp : parseDirective text shootKeyword with
    | none => simp [hf]
    | some target =>
      by_cases ha : ((findPlayer players target).getD p).alive = true
      · simp only [ha, if_true]
        rw [findPlayer_killSeat_isSome]
        simp [hf]
      · simp only [Bool.not_eq_true] at ha
        simp [ha, hf]
  · simp only [Bool.not_eq_true] at hc
    rw [if_neg (by simp [hc])]
    simp [hf]

/-- C4 counterexample: triggering the reactive ability on a hunter seat
whose ability is unused with an absent or empty reply returns early: the
roster is unchanged and the ability-used flag stays false, although the
claim says the flag is true after every invocation. -/
theorem hunter_flag_empty_reply_counterexample :
    (findPlayer exHunterRoster 1).map (fun p => p.role) = some Role.hunter ∧
    flagOf exHunterRoster 1 = false ∧
    triggerHunter exHunterRoster 1 none = exHunterRoster ∧
    flagOf (triggerHunter exHunterRoster 1 none) 1 = false ∧
    triggerHunter exHunterRoster 1 (some []) = exHunterRoster ∧
    flagOf (triggerHunter exHunterRoster 1 (some [])) 1 = false := by
  decide

/-- C4 amended: on a hunter seat whose ability is unused, the invocation
sets the ability-used flag whenever the agent's reply is non-empty, with
or without a shoot directive in it; an absent or empty reply instead
returns early and leaves the whole roster (flag included) unchanged. -/
theorem hunter_flag_set_on_reply (players : List PlayerState) (seat : Nat)
    (response : Option (List Char)) (p : PlayerState)
    (hf : findPlayer players seat = some p) (hrole : p.role = Role.hunter)
    (hshot : p.hunter_has_shot = false) :
    (∀ text, response = some text → text ≠ [] →
      flagOf (triggerHunter players seat response) seat = true) ∧
    (response = none ∨ response = some [] →
      triggerHunter players seat response = players) := by
  constructor
  · intro text hr htext
    subst hr
    exact flagOf_trigger_nonempty players seat p text hf hrole hshot htext
  · rintro (rfl | rfl)
    · unfold triggerHunter
      rw [hf]
      show (if p.role ≠ Role.hunter ∨ p.hunter_has_shot = true then players else players) =
        players
      split_ifs <;> rfl
    · unfold triggerHunter
      rw [hf]
      show (if p.role ≠ Role.hunter ∨ p.hunter_has_shot = true then players
        else if ([] : List Char) = [] then players
        else setShot
          (if containsSeq shootMarker [] = true then
             match parseDirective [] shootKeyword with
             | some target =>
               if ((findPlayer players target).getD p).alive = true then killSeat players target
               else players
             | none => players
           else players) seat) = players
      split_ifs with h1 h2 <;> first | rfl | exact absurd rfl h2

/-- Witness for C4 amended: a reply with no shoot directive and a reply
with one both leave the flag set; an absent reply leaves the roster
unchanged. -/
theorem hunter_flag_set_on_reply_witness :
    flagOf (triggerHunter exHunterRoster 1 (some exPassReply)) 1 = true ∧
    flagOf (triggerHunter exHunterRoster 1 (some exShootReply)) 1 = true ∧
    triggerHunter exHunterRoster 1 none = exHunterRoster :=
  ⟨(hunter_flag_set_on_reply exHunterRoster 1 (some exPassReply)
      ⟨1, Role.hunter, false, false⟩ (by decide) rfl rfl).1 exPassReply rfl (by decide),
   (hunter_flag_set_on_reply exHunterRoster 1 (some exShootReply)
      ⟨1, Role.hunter, false, false⟩ (by decide) rfl rfl).1 exShootReply rfl (by decide),
   (hunter_flag_set_on_reply exHunterRoster 1 none
      ⟨1, Role.hunter, false, false⟩ (by decide) rfl rfl).2 (.inl rfl)⟩

theorem flagOf_killSeat (players : List PlayerState) (t x : Nat) :
    flagOf (killSeat players t) x = flagOf players x := by
  unfold flagOf
  rw [findPlayer_killSeat]
  cases findPlayer players x with
  | none => simp
  | some p => by_cases h : p.seat_id = t <;> simp [h]

theorem flagOf_setShot_mono (players : List PlayerState) (s x : Nat)
    (hf : flagOf players x = true) : flagOf (setShot players s) x = true := by
  unfold flagOf at *
  rw [findPlayer_setShot]
  cases hfp : findPlayer players x with
  | none => rw [hfp] at hf; simp at hf
  | some p =>
    rw [hfp] at hf
    simp at hf
    by_cases h : p.seat_id = s <;> simp [h, hf]

/-- Every invocation of the trigger either leaves the roster unchanged or
sets the triggered seat's flag on a roster that differs from the input
at most by one killed seat. -/
theorem triggerHunter_shape (players : List PlayerState) (s : Nat)
    (r : Option (List Char)) :
    triggerHunter players s r = players ∨
    ∃ ps1, (ps1 = players ∨ ∃ t, ps1 = killSeat players t) ∧
      triggerHunter players s r = setShot ps1 s := by
  unfold triggerHunter
  split
  · exact .inl rfl
  · split
    · exact .inl rfl
    · split
      · exact .inl rfl
      · split
        · exact .inl rfl
        · right
          refine ⟨_, ?_, rfl⟩
          split
          · split
            · split
              · exact .inr ⟨_, rfl⟩
              · exact .inl rfl
            · exact .inl rfl
          · exact .inl rfl

theorem flagOf_triggerHunter_mono (players : List PlayerState) (s x : Nat)
    (r : Option (List Char)) (hf : flagOf players x = true) :
    flagOf (triggerHunter players s r) x = true := by
  rcases triggerHunter_shape players s r with h | ⟨ps1, hps1, h⟩
  · rw [h]; exact hf
  · rw [h]
    apply flagOf_setShot_mono
    rcases hps1 with rfl | ⟨t, rfl⟩
    · exact hf
    · rw [flagOf_killSeat]; exact hf

theorem triggerHunter_noop_of_flag (players : List PlayerState) (h : Nat)
    (r : Option (List Char)) (hf : flagOf players h = true) :
    triggerHunter players h r = players := by
  unfold flagOf at hf
  unfold triggerHunter
  split
  · rfl
  · rename_i player heq
    rw [heq] at hf
    simp at hf
    rw [if_pos (Or.inr hf)]

theorem shotTaken_false_of_flag (players : List PlayerState) (h : Nat)
    (r : Option (List Char)) (hf : flagOf players h = true) :
    shotTaken players h r = false := by
  unfold flagOf at hf
  unfold shotTaken
  split
  · rfl
  · rename_i player heq
    rw [heq] at hf
    simp at hf
    rw [if_pos (Or.inr hf)]

/-- A call that takes a shot leaves the triggered seat's flag set. -/
theorem flag_after_shot (players : List PlayerState) (h : Nat)
    (r : Option (List Char)) (hs : shotTaken players h r = true) :
    flagOf (triggerHunter players h r) h = true := by
  unfold shotTaken at hs
  split at hs
  · simp at hs
  · rename_i player heq
    split at hs
    · simp at hs
    · rename_i hguard
      push_neg at hguard
      split at hs
      · simp at hs
      · rename_i text
        split at hs
        · simp at hs
        · rename_i htext
          exact flagOf_trigger_nonempty players h player text heq hguard.1
            (by simpa using hguard.2) htext

theorem countShots_zero_of_flag (players : List PlayerState) (h : Nat)
    (invs : List (Nat × Option (List Char))) (hf : flagOf players h = true) :
    countShots players h invs = 0 := by
  induction invs generalizing players with
  | nil => rfl
  | cons sr rest ih =>
    obtain ⟨s, r⟩ := sr
    show (if s = h ∧ shotTaken players s r then 1 else 0) +
      countShots (triggerHunter players s r) h rest = 0
    rw [if_neg, ih _ (flagOf_triggerHunter_mono players s h r hf)]
    rintro ⟨rfl, hst⟩
    rw [shotTaken_false_of_flag players s r hf] at hst
    cases hst

/-- C6: Single-use reactive ability: across any sequence of trigger
invocations the hunter on seat `h` takes at most one retaliatory shot,
and once the ability-used flag is set every further invocation on that
seat returns the roster unchanged. -/
theorem hunter_single_use (players : List PlayerState) (h : Nat)
    (invs : List (Nat × Option (List Char))) :
    countShots players h invs ≤ 1 ∧
    (flagOf players h = true → ∀ r, triggerHunter players h r = players) := by
  constructor
  · induction invs generalizing players with
    | nil => exact Nat.zero_le 1
    | cons sr rest ih =>
      obtain ⟨s, r⟩ := sr
      show (if s = h ∧ shotTaken players s r then 1 else 0) +
        countShots (triggerHunter players s r) h rest ≤ 1
      by_cases hc : s = h ∧ shotTaken players s r = true
      · obtain ⟨rfl, hst⟩ := hc
        rw [if_pos ⟨rfl, hst⟩,
          countShots_zero_of_flag _ _ _ (flag_after_shot players s r hst)]
      · rw [if_neg hc]
        simpa using ih (triggerHunter players s r)
  · intro hf r
    exact triggerHunter_noop_of_flag players h r hf

/-- Witness for C6: two consecutive shoot-triggers on the fresh hunter
roster still count at most one shot, and on a spent hunter the trigger
is a no-op. -/
theorem hunter_single_use_witness :
    countShots exHunterRoster 1 [(1, some exShootReply), (1, some exShootReply)] ≤ 1 ∧
    triggerHunter exHunterShotRoster 1 (some exShootReply) = exHunterShotRoster :=
  ⟨(hunter_single_use exHunterRoster 1 [(1, some exShootReply), (1, some exShootReply)]).1,
   (hunter_single_use exHunterShotRoster 1 []).2 (by decide) (some exShootReply)⟩

theorem splitAtClose_len {l a b : List Char} (h : splitAtClose l = some (a, b)) :
    b.length < l.length := by
  induction l generalizing a b with
  | nil => simp [splitAtClose] at h
  | cons c cs ih =>
    simp only [splitAtClose] at h
    split at h
    · obtain ⟨-, rfl⟩ := Option.some.inj h
      simp
    · cases hs : splitAtClose cs with
      | none => rw [hs] at h; exact absurd h (by simp)
      | some p =>
        obtain ⟨a0, b0⟩ := p
        rw [hs] at h
        obtain ⟨-, rfl⟩ := Option.some.inj h
        have := ih hs
        simp
        omega

theorem digit_value_le (c : Char) (h : c.isDigit = true) :
    c.toNat - '0'.toNat ≤ 9 := by
  unfold Char.isDigit at h
  simp at h
  obtain ⟨h1, h2⟩ := h
  have h2' : c.val.toNat ≤ (57 : UInt32).toNat := h2
  have g2 : ((57 : UInt32)).toNat = 57 := rfl
  have g4 : ('0' : Char).val.toNat = 48 := rfl
  unfold Char.toNat
  omega

theorem findMatches_digit : ∀ (n : Nat) (l : List Char), l.length ≤ n →
    ∀ m ∈ findMatches l, m.2.isDigit = true := by
  intro n
  induction n with
  | zero =>
    intro l hl m hm
    obtain rfl : l = [] := List.length_eq_zero.mp (Nat.le_zero.mp hl)
    rw [findMatches.eq_def] at hm
    exact absurd hm (List.not_mem_nil m)
  | succ k ih =>
    intro l hl m hm
    cases l with
    | nil =>
      rw [findMatches.eq_def] at hm
      exact absurd hm (List.not_mem_nil m)
    | cons c rest =>
      have hrest : rest.length ≤ k := by
        simpa using Nat.le_of_succ_le_succ (by simpa using hl)
      rw [findMatches.eq_def] at hm
      dsimp only at hm
      split at hm
      · split at hm
        · rename_i heq
          split at hm
          · rename_i hcond
            rcases List.mem_cons.mp hm with rfl | hm2
            · exact hcond.2
            · have htail := splitAtClose_len heq
              refine ih _ (by simp at htail; omega) m hm2
          · exact ih rest hrest m hm
        · exact ih rest hrest m hm
      · exact ih rest hrest m hm

/-- C10: Directive parsing only ever yields single-digit seat numbers: a
parsed target is always between 0 and 9, and a directive naming a
multi-digit seat such as 12 parses as the seat of its first digit, so
seats above 9 can never be targeted. -/
theorem parse_directive_single_digit (text keyword : List Char) :
    (∀ n, parseDirective text keyword = some n → n ≤ 9) ∧
    parseDirective (String.toList "【击杀】座位12") (String.toList "击杀") = some 1 := by
  constructor
  · intro n hn
    unfold parseDirective at hn
    cases hfind : (findMatches text).find? (fun m => m.1 == keyword) with
    | none => rw [hfind] at hn; simp at hn
    | some m =>
      rw [hfind] at hn
      simp only [Option.map_some'] at hn
      obtain rfl : m.2.toNat - '0'.toNat = n := Option.some.inj hn
      exact digit_value_le m.2
        (findMatches_digit text.length text (Nat.le_refl _) m
          (List.mem_of_find?_eq_some hfind))
  · simp [parseDirective, findMatches, splitAtClose]

/-- Witness for C10: the shoot reply parses to seat 2, which the theorem
bounds by 9. -/
theorem parse_directive_single_digit_witness :
    parseDirective exShootReply shootKeyword = some 2 ∧ 2 ≤ 9 :=
  ⟨by simp [parseDirective, findMatches, splitAtClose, exShootReply, shootKeyword],
   (parse_directive_single_digit exShootReply shootKeyword).1 2
     (by simp [parseDirective, findMatches, splitAtClose, exShootReply, shootKeyword])⟩

theorem firstWithCount_countsMax (votes : List Nat) :
    ∀ (ks : List Nat) (best : Nat),
      firstWithCount votes (countsMax votes (best :: ks)) (best :: ks) =
        some (pickMax votes best ks) := by
  intro ks
  induction ks with
  | nil =>
    intro best
    simp [countsMax, firstWithCount, pickMax]
  | cons k ks ih =>
    intro best
    by_cases hgt : votes.count k > votes.count best
    · have hM : countsMax votes (best :: k :: ks) = countsMax votes (k :: ks) := by
        simp only [countsMax]
        omega
      have hck : votes.count k ≤ countsMax votes (k :: ks) := by
        simp only [countsMax]
        omega
      rw [hM]
      simp only [firstWithCount, pickMax]
      rw [if_neg (by omega), if_pos hgt]
      exact ih k
    · have hM : countsMax votes (best :: k :: ks) = countsMax votes (best :: ks) := by
        simp only [countsMax]
        omega
      rw [hM]
      simp only [pickMax]
      rw [if_neg hgt]
      rw [← ih best]
      simp only [firstWithCount]
      by_cases hb : votes.count best = countsMax votes (best :: ks)
      · rw [if_pos hb, if_pos hb]
      · rw [if_neg hb, if_neg hb]
        have hcb : votes.count best ≤ countsMax votes (best :: ks) := by
          simp only [countsMax]
          omega
        rw [if_neg (by omega)]

theorem firstWithCount_filter (votes : List Nat) (m x : Nat)
    (hx : votes.count x ≠ m) :
    ∀ l : List Nat, firstWithCount votes m (l.filter (fun y => y ≠ x)) =
      firstWithCount votes m l := by
  intro l
  induction l with
  | nil => rfl
  | cons y ys ih =>
    simp only [List.filter_cons]
    by_cases hyx : y = x
    · subst hyx
      rw [if_neg (by simp)]
      rw [ih]
      simp only [firstWithCount]
      rw [if_neg hx]
    · rw [if_pos (by simp [hyx])]
      simp only [firstWithCount]
      by_cases hy : votes.count y = m
      · rw [if_pos hy, if_pos hy]
      · rw [if_neg hy, if_neg hy, ih]

theorem firstWithCount_keys (votes : List Nat) (m : Nat) :
    ∀ (n : Nat) (l : List Nat), l.length ≤ n →
      firstWithCount votes m (keysInOrder l) = firstWithCount votes m l := by
  intro n
  induction n with
  | zero =>
    intro l hl
    obtain rfl : l = [] := List.length_eq_zero.mp (Nat.le_zero.mp hl)
    simp only [keysInOrder]
  | succ k ih =>
    intro l hl
    cases l with
    | nil => simp only [keysInOrder]
    | cons x xs =>
      simp only [keysInOrder]
      simp only [firstWithCount]
      by_cases hx : votes.count x = m
      · rw [if_pos hx, if_pos hx]
      · rw [if_neg hx, if_neg hx]
        rw [ih _ (le_trans (List.length_filter_le _ _) (by simpa using Nat.le_of_succ_le_succ hl))]
        exact firstWithCount_filter votes m x hx xs

theorem countsMax_filter (votes : List Nat) (x : Nat) :
    ∀ l : List Nat,
      max (votes.count x) (countsMax votes (l.filter (fun y => y ≠ x))) =
        max (votes.count x) (countsMax votes l) := by
  intro l
  induction l with
  | nil => rfl
  | cons y ys ih =>
    simp only [List.filter_cons]
    by_cases hyx : y = x
    · subst hyx
      rw [if_neg (by simp)]
      simp only [countsMax]
      omega
    · rw [if_pos (by simp [hyx])]
      simp only [countsMax]
      omega

theorem countsMax_keys (votes : List Nat) :
    ∀ (n : Nat) (l : List Nat), l.length ≤ n →
      countsMax votes (keysInOrder l) = countsMax votes l := by
  intro n
  induction n with
  | zero =>
    intro l hl
    obtain rfl : l = [] := List.length_eq_zero.mp (Nat.le_zero.mp hl)
    simp only [keysInOrder]
  | succ k ih =>
    intro l hl
    cases l with
    | nil => simp only [keysInOrder]
    | cons x xs =>
      simp only [keysInOrder]
      simp only [countsMax]
      rw [ih _ (le_trans (List.length_filter_le _ _) (by simpa using Nat.le_of_succ_le_succ hl))]
      have := countsMax_filter votes x xs
      omega

theorem mostCommonOne_eq_firstWithCount (votes : List Nat) (hne : votes ≠ []) :
    mostCommonOne votes = firstWithCount votes (countsMax votes votes) votes := by
  obtain ⟨v, vs, rfl⟩ := List.exists_cons_of_ne_nil hne
  have hkeys : keysInOrder (v :: vs) =
      v :: keysInOrder (vs.filter (fun y => y ≠ v)) := by
    simp only [keysInOrder]
  unfold mostCommonOne
  rw [hkeys]
  show some (pickMax (v :: vs) v (keysInOrder (vs.filter (fun y => y ≠ v)))) =
    firstWithCount (v :: vs) (countsMax (v :: vs) (v :: vs)) (v :: vs)
  rw [← firstWithCount_countsMax (v :: vs) (keysInOrder (vs.filter (fun y => y ≠ v))) v]
  rw [← hkeys]
  rw [firstWithCount_keys (v :: vs) _ (v :: vs).length _ (Nat.le_refl _),
    countsMax_keys (v :: vs) (v :: vs).length _ (Nat.le_refl _)]

theorem firstWithCount_mem {votes : List Nat} {m t : Nat} :
    ∀ {l : List Nat}, firstWithCount votes m l = some t →
      t ∈ l ∧ votes.count t = m := by
  intro l
  induction l with
  | nil => intro h; simp [firstWithCount] at h
  | cons y ys ih =>
    intro h
    simp only [firstWithCount] at h
    split at h
    · obtain rfl := Option.some.inj h
      exact ⟨List.mem_cons_self _ _, by assumption⟩
    · obtain ⟨hm, hc⟩ := ih h
      exact ⟨List.mem_cons_of_mem _ hm, hc⟩

theorem count_le_countsMax (votes : List Nat) :
    ∀ (l : List Nat), ∀ c ∈ l, votes.count c ≤ countsMax votes l := by
  intro l
  induction l with
  | nil => intro c hc; cases hc
  | cons y ys ih =>
    intro c hc
    rcases List.mem_cons.mp hc with rfl | hc2
    · simp only [countsMax]; omega
    · have := ih c hc2
      simp only [countsMax]
      omega

theorem firstWithCount_idx (votes : List Nat) (m : Nat) :
    ∀ (l : List Nat) (t : Nat), firstWithCount votes m l = some t →
      ∀ c ∈ l, votes.count c = m → l.indexOf t ≤ l.indexOf c := by
  intro l
  induction l with
  | nil => intro t h; simp [firstWithCount] at h
  | cons y ys ih =>
    intro t h c hc hcm
    simp only [firstWithCount] at h
    split at h
    · obtain rfl := Option.some.inj h
      simp [List.indexOf_cons_self]
    · rename_i hy
      have ht := firstWithCount_mem h
      have hty : t ≠ y := by
        intro he
        rw [he] at ht
        exact hy ht.2
      rcases List.mem_cons.mp hc with rfl | hc2
      · exact absurd hcm hy
      · have hcy : c ≠ y := by
          intro he
          rw [he] at hcm
          exact hy hcm
        rw [List.indexOf_cons_ne _ (by simpa using Ne.symm hty),
          List.indexOf_cons_ne _ (by simpa using Ne.symm hcy)]
        exact Nat.succ_le_succ (ih t h c hc2 hcm)

/-- C3 counterexample: on the wolf vote sequence [1, 2, 2, 1] the code's
tally (insertion-ordered Counter with a stable most_common) selects
candidate 1, the first-encountered of the two tied candidates, while
the claim's rule — the candidate that first reached the maximum count
in the vote sequence — selects candidate 2, which hit count 2 one vote
earlier. -/
theorem wolf_tally_tie_break_counterexample :
    nightKillTarget [1, 2, 2, 1] = some 1 ∧
    claimedKillTarget [1, 2, 2, 1] = some 2 ∧ (1 : Nat) ≠ 2 := by
  refine ⟨?_, by decide, by decide⟩
  show mostCommonOne [1, 2, 2, 1] = some 1
  simp [mostCommonOne, keysInOrder, pickMax]

/-- C3 amended: the kill target of a non-empty wolf vote sequence is a
plurality choice, with ties broken deterministically in favor of the
candidate whose first occurrence in the vote sequence is earliest (the
first-encountered key of the insertion-ordered tally); an empty vote
sequence yields no kill target. -/
theorem wolf_tally_plurality (votes : List Nat) :
    (votes = [] → nightKillTarget votes = none) ∧
    (votes ≠ [] → ∃ t, nightKillTarget votes = some t ∧ t ∈ votes ∧
      (∀ c ∈ votes, votes.count c ≤ votes.count t) ∧
      (∀ c ∈ votes, votes.count c = votes.count t →
        votes.indexOf t ≤ votes.indexOf c)) := by
  constructor
  · rintro rfl
    rfl
  · intro hne
    obtain ⟨v, vs, rfl⟩ := List.exists_cons_of_ne_nil hne
    have hnk : nightKillTarget (v :: vs) = mostCommonOne (v :: vs) := rfl
    have hfc0 : mostCommonOne (v :: vs) =
        firstWithCount (v :: vs) (countsMax (v :: vs) (v :: vs)) (v :: vs) :=
      mostCommonOne_eq_firstWithCount _ (by simp)
    obtain ⟨t, ht⟩ : ∃ t, mostCommonOne (v :: vs) = some t := by
      unfold mostCommonOne
      simp only [keysInOrder]
      exact ⟨_, rfl⟩
    have hfc : firstWithCount (v :: vs) (countsMax (v :: vs) (v :: vs)) (v :: vs) =
        some t := by
      rw [← hfc0]
      exact ht
    have hmem := firstWithCount_mem hfc
    refine ⟨t, by rw [hnk, ht], hmem.1, ?_, ?_⟩
    · intro c hc
      rw [hmem.2]
      exact count_le_countsMax _ _ c hc
    · intro c hc hcm
      exact firstWithCount_idx _ _ _ t hfc c hc (by rw [hcm, hmem.2])

/-- Witness for C3 amended: no votes yield no target, and on the tied
sequence [3, 4, 4, 3] a plurality winner with the stated tie-break
exists. -/
theorem wolf_tally_plurality_witness :
    nightKillTarget ([] : List Nat) = none ∧
    (∃ t, nightKillTarget [3, 4, 4, 3] = some t ∧ t ∈ ([3, 4, 4, 3] : List Nat) ∧
      (∀ c ∈ ([3, 4, 4, 3] : List Nat),
        ([3, 4, 4, 3] : List Nat).count c ≤ ([3, 4, 4, 3] : List Nat).count t) ∧
      (∀ c ∈ ([3, 4, 4, 3] : List Nat),
        ([3, 4, 4, 3] : List Nat).count c = ([3, 4, 4, 3] : List Nat).count t →
        ([3, 4, 4, 3] : List Nat).indexOf t ≤ ([3, 4, 4, 3] : List Nat).indexOf c)) :=
  ⟨(wolf_tally_plurality []).1 rfl,
   (wolf_tally_plurality [3, 4, 4, 3]).2 (by decide)⟩

theorem lookupRound_append_of_none (rounds : List (Nat × RoundRecord)) (n : Nat)
    (rec : RoundRecord) (h : lookupRound rounds n = none) :
    lookupRound (rounds ++ [(n, rec)]) n = some rec := by
  unfold lookupRound at *
  induction rounds with
  | nil => simp [List.find?]
  | cons kv kvs ih =>
    rw [List.cons_append]
    by_cases hk : (kv.1 == n) = true
    · rw [@List.find?_cons_of_pos _ (fun kv => kv.1 == n) kv kvs hk] at h
      simp at h
    · rw [@List.find?_cons_of_neg _ (fun kv => kv.1 == n) kv kvs hk] at h
      rw [@List.find?_cons_of_neg _ (fun kv => kv.1 == n) kv (kvs ++ [(n, rec)]) hk]
      exact ih h

theorem lookupRound_updateRound (rounds : List (Nat × RoundRecord)) (n : Nat)
    (f : RoundRecord → RoundRecord) :
    lookupRound (updateRound rounds n f) n = (lookupRound rounds n).map f := by
  unfold lookupRound updateRound
  induction rounds with
  | nil => rfl
  | cons kv kvs ih =>
    simp only [List.map_cons]
    by_cases hk : kv.1 = n
    · rw [if_pos hk]
      rw [@List.find?_cons_of_pos _ (fun kv => kv.1 == n) (kv.1, f kv.2) _ (by simp [hk])]
      rw [@List.find?_cons_of_pos _ (fun kv => kv.1 == n) kv kvs (by simp [hk])]
      simp
    · rw [if_neg hk]
      rw [@List.find?_cons_of_neg _ (fun kv => kv.1 == n) kv _ (by simp [hk])]
      rw [@List.find?_cons_of_neg _ (fun kv => kv.1 == n) kv kvs (by simp [hk])]
      exact ih

/-- C9 counterexample: with a seating plan listing seat 2 before seat 1
(both alive), the speaking order computed by the day phase is [2, 1],
the seating-plan order, and [2, 1] is what gets recorded as the round's
day order — not the ascending [1, 2] the claim states. -/
theorem day_order_not_sorted_counterexample :
    dayPhaseOrder exUnsortedRoster = [2, 1] ∧
    claimedDayOrder exUnsortedRoster = [1, 2] ∧
    dayPhaseOrder exUnsortedRoster ≠ claimedDayOrder exUnsortedRoster ∧
    lookupRound (dayPhaseRecordOrder (mkChronicle [2, 1]) 1 exUnsortedRoster).rounds 1 =
      some { round := 1, night := {}, day := { order := [2, 1] } } := by
  decide

/-- C9 amended: the day phase records, as the round's day order, exactly
the alive seats in seating-plan (roster insertion) order; when the
seating plan lists seats in ascending seat-id order — as every shipped
configuration does — that recorded order is ascending. -/
theorem day_order_alive_roster (c : Chronicle) (n : Nat) (players : List PlayerState) :
    (∃ r, lookupRound (dayPhaseRecordOrder c n players).rounds n = some r ∧
      r.day.order = aliveSeats players) ∧
    (List.Pairwise (fun p q => p.seat_id ≤ q.seat_id) players →
      List.Sorted (· ≤ ·) (dayPhaseOrder players)) := by
  constructor
  · unfold dayPhaseRecordOrder ensureRound
    cases hl : lookupRound c.rounds n with
    | none =>
      exact ⟨_, lookupRound_append_of_none c.rounds n _ hl, rfl⟩
    | some r0 =>
      exact ⟨_, by rw [lookupRound_updateRound, hl]; rfl, rfl⟩
  · intro hp
    unfold dayPhaseOrder aliveSeats
    exact List.Pairwise.map _ (fun a b h => h)
      (hp.sublist (List.filter_sublist _))

/-- Witness for C9 amended at the ascending three-seat roster. -/
theorem day_order_alive_roster_witness :
    (∃ r, lookupRound (dayPhaseRecordOrder (mkChronicle [1, 2, 3]) 1 exRoster).rounds 1 =
        some r ∧ r.day.order = aliveSeats exRoster) ∧
    List.Sorted (· ≤ ·) (dayPhaseOrder exRoster) :=
  ⟨(day_order_alive_roster (mkChronicle [1, 2, 3]) 1 exRoster).1,
   (day_order_alive_roster (mkChronicle [1, 2, 3]) 1 exRoster).2 (by decide)⟩

theorem updateRound_forall {P : RoundRecord → Prop} (rounds : List (Nat × RoundRecord))
    (n : Nat) (f : RoundRecord → RoundRecord) (hf : ∀ r, P r → P (f r))
    (h : ∀ kv ∈ rounds, P kv.2) : ∀ kv ∈ updateRound rounds n f, P kv.2 := by
  intro kv hkv
  unfold updateRound at hkv
  obtain ⟨kv0, hkv0, rfl⟩ := List.mem_map.mp hkv
  by_cases hk : kv0.1 = n
  · simp only [if_pos hk]
    exact hf _ (h kv0 hkv0)
  · simp only [if_neg hk]
    exact h kv0 hkv0

theorem chronInv_ensureRound (c : Chronicle) (n : Nat) (order : Option (List Nat))
    (h : chronInv c) : chronInv (ensureRound c n order) := by
  obtain ⟨h1, h2, h3⟩ := h
  unfold ensureRound
  cases lookupRound c.rounds n with
  | none =>
    refine ⟨h1, h2, ?_⟩
    intro kv hkv
    rcases List.mem_append.mp hkv with hold | hnew
    · exact h3 kv hold
    · simp only [List.mem_singleton] at hnew
      subst hnew
      exact ⟨by simp, by simp⟩
  | some r0 =>
    cases order with
    | none => exact ⟨h1, h2, h3⟩
    | some o =>
      show chronInv
        { c with rounds :=
            updateRound c.rounds n (fun r => { r with day := { r.day with order := o } }) }
      refine ⟨h1, h2, ?_⟩
      intro kv hkv
      exact @updateRound_forall
        (fun rec => rec.day.summary_10.length ≤ 10 ∧ rec.day.summary_10.Nodup) c.rounds n
        (fun r => { r with day := { r.day with order := o } }) (fun r hr => hr) h3 kv hkv

theorem chronInv_updateRounds (c : Chronicle) (n : Nat) (f : RoundRecord → RoundRecord)
    (h : chronInv c)
    (hf : ∀ r, r.day.summary_10.length ≤ 10 ∧ r.day.summary_10.Nodup →
      (f r).day.summary_10.length ≤ 10 ∧ (f r).day.summary_10.Nodup) :
    chronInv { c with rounds := updateRound c.rounds n f } := by
  obtain ⟨h1, h2, h3⟩ := h
  exact ⟨h1, h2, updateRound_forall c.rounds n f hf h3⟩

theorem chronInv_applyOp (c : Chronicle) (op : ChronOp) (h : chronInv c) :
    chronInv (applyOp c op) := by
  cases op with
  | ensure n order => exact chronInv_ensureRound c n order h
  | nightEvent n e =>
    exact chronInv_updateRounds _ n _ (chronInv_ensureRound c n none h) (fun r hr => hr)
  | nightSummary n s =>
    exact chronInv_updateRounds _ n _ (chronInv_ensureRound c n none h) (fun r hr => hr)
  | dayUtterance n seat idx text one_line =>
    exact chronInv_updateRounds _ n _ (chronInv_ensureRound c n none h) (fun r hr => hr)
  | vote n fromSeat toSeat =>
    exact chronInv_updateRounds _ n _ (chronInv_ensureRound c n none h) (fun r hr => hr)
  | lynch n seat =>
    exact chronInv_updateRounds _ n _ (chronInv_ensureRound c n none h) (fun r hr => hr)
  | daySummary n s =>
    apply chronInv_updateRounds _ n _ (chronInv_ensureRound c n none h)
    intro r hr
    by_cases hs : s ∈ r.day.summary_10
    · simp only [if_pos hs]
      exact hr
    · simp only [if_neg hs]
      constructor
      · simpa using List.length_take_le 10 _
      · refine List.Nodup.sublist (List.take_sublist _ _) ?_
        refine hr.2.append (List.nodup_singleton s) ?_
        intro x hx hxs
        simp only [List.mem_singleton] at hxs
        exact hs (hxs ▸ hx)
  | globalSummary s =>
    obtain ⟨h1, h2, h3⟩ := h
    show chronInv (refreshGlobalSummary c s)
    unfold refreshGlobalSummary
    by_cases hs : s ∈ c.global_summary
    · rw [if_pos hs]
      exact ⟨h1, h2, h3⟩
    · rw [if_neg hs]
      show chronInv
        { c with global_summary :=
            if (c.global_summary ++ [s]).length > 6 then
              (c.global_summary ++ [s]).drop ((c.global_summary ++ [s]).length - 6)
            else c.global_summary ++ [s] }
      have hnodup : (c.global_summary ++ [s]).Nodup := by
        refine h2.append (List.nodup_singleton s) ?_
        intro x hx hxs
        simp only [List.mem_singleton] at hxs
        exact hs (hxs ▸ hx)
      by_cases hlen : (c.global_summary ++ [s]).length > 6
      · rw [if_pos hlen]
        refine ⟨?_, List.Nodup.sublist (List.drop_sublist _ _) hnodup, h3⟩
        simp only [List.length_drop]
        omega
      · rw [if_neg hlen]
        refine ⟨?_, hnodup, h3⟩
        show (c.global_summary ++ [s]).length ≤ 6
        omega

/-- C8: Bounded, deduplicated summaries: starting from a fresh chronicle,
after any sequence of chronicle operations every round's day summary
holds at most ten entries, the global summary holds at most six, and
neither ever contains the same string twice. -/
theorem chronicle_bounded_dedup (seats : List Nat) (ops : List ChronOp) :
    chronInv (applyOps (mkChronicle seats) ops) := by
  have hstep : ∀ (ops : List ChronOp) (c : Chronicle), chronInv c →
      chronInv (applyOps c ops) := by
    intro ops
    induction ops with
    | nil => intro c h; exact h
    | cons op rest ih =>
      intro c h
      exact ih _ (chronInv_applyOp c op h)
  refine hstep ops _ ⟨by simp [mkChronicle], by simp [mkChronicle], ?_⟩
  intro kv hkv
  simp [mkChronicle] at hkv
